import Mathlib

/-!
# Concurrent range-split download (`cliutils/ioutils.go`)

A shallow embedding of the download pipeline of `cliutils/ioutils.go`:
the range planning loop of `DownloadFileConcurrently`, the ranged fetch
`downloadFileRange` with its redirect fallback (`Send`), the reassembly loop
(`AppendFile`), the probe `GetRemoteFileDetails`, the temporary directory
variable (`GetTempDirPath`, `CreateTempDirPath`) and `GetFileAndDirFromPath`.

Conventions of the embedding.

* `int64` values are mathematical integers; every arithmetic result is reduced
  with `wrap64`, and the theorems show where the reduction is the identity.
* Go strings are Lean strings; a byte slice is a `List UInt8`.
* Code that ends the process (`Exit`, `CheckError` with an error) yields
  `Result.exited`, which carries the world in which the process stopped.
* The process state is a `World`: the package variable `tempDirPath`, the
  regular files of the file system, the log of the HTTP requests sent and the
  lines printed.
* The goroutines of `DownloadFileConcurrently` run one after the other, in an
  order chosen by a scheduler that the theorems leave arbitrary.
-/

namespace JfrogCli

/-! ## Machine integers -/

/-- Two's-complement reduction of an integer to the value an `int64` holds. -/
def wrap64 (x : Int) : Int := (x + 2 ^ 63) % 2 ^ 64 - 2 ^ 63

/-- The values of the type `int64`. -/
def inInt64 (x : Int) : Prop := -(2 ^ 63) ≤ x ∧ x < 2 ^ 63

instance (x : Int) : Decidable (inInt64 x) := by unfold inInt64; infer_instance

/-! ## Flags -/

/-- The struct `ConcurrentDownloadFlags`. -/
structure ConcurrentDownloadFlags where
  DownloadPath : String
  FileName : String
  LocalPath : String
  FileSize : Int
  SplitCount : Int
  Flat : Bool
  User : String
  Password : String
deriving DecidableEq

/-! ## Range planning (the first loop of `DownloadFileConcurrently`) -/

/-- The arguments `(start, end, i)` handed to one goroutine. -/
structure RangeCall where
  start : Int
  stop : Int
  index : Int
deriving DecidableEq

/-- The expression `flags.FileSize / int64(flags.SplitCount)`: truncated division. -/
def chunkSizeOf (FileSize SplitCount : Int) : Int := wrap64 (Int.tdiv FileSize SplitCount)

/-- The expression `flags.FileSize % int64(flags.SplitCount)`: truncated remainder. -/
def modOf (FileSize SplitCount : Int) : Int := Int.tmod FileSize SplitCount

/-- The body of the planning loop at counter `i`: `start`, `end` and the
adjustment of `end` in the last iteration. The type `int` of the counter and
of `SplitCount` is taken to be 64 bits wide. -/
def rangeCall (FileSize SplitCount : Int) (i : Int) : RangeCall :=
  let chunkSize := chunkSizeOf FileSize SplitCount
  let mod := modOf FileSize SplitCount
  let start := wrap64 (chunkSize * i)
  let stop := wrap64 (chunkSize * wrap64 (i + 1))
  let stop := if i = wrap64 (SplitCount - 1) then wrap64 (stop + mod) else stop
  { start := start, stop := stop, index := i }

/-- The calls made by `for i := 0; i < flags.SplitCount; i++`, in loop order.
The division by `SplitCount = 0` is a run-time panic: `none`. -/
def plannedCalls (flags : ConcurrentDownloadFlags) : Option (List RangeCall) :=
  if flags.SplitCount = 0 then none
  else some ((List.range flags.SplitCount.toNat).map
    fun (i : Nat) => rangeCall flags.FileSize flags.SplitCount (Int.ofNat i))

/-! ## Decimal formatting and the Range header -/

/-- The function `strconv.FormatInt(z, 10)`. -/
def FormatInt (z : Int) : String :=
  if z < 0 then "-" ++ Nat.repr z.natAbs else Nat.repr z.natAbs

/-- The function `strconv.Itoa`. -/
def Itoa (i : Int) : String := FormatInt i

/-- The value stored under `headers["Range"]` by `downloadFileRange`. -/
def rangeHeader (start stop : Int) : String :=
  "bytes=" ++ FormatInt start ++ "-" ++ FormatInt (wrap64 (stop - 1))

/-! ## The process state -/

/-- A byte slice. -/
abbrev Bytes := List UInt8

/-- Collapse every run of slashes to a single slash: the part of path
resolution that makes "a//b" and "a/b" name the same file. -/
def collapseSlashes : List Char → List Char
  | [] => []
  | [c] => [c]
  | c :: d :: rest =>
    if c = '/' ∧ d = '/' then collapseSlashes (d :: rest)
    else c :: collapseSlashes (d :: rest)

/-- The name under which the file system stores a path. -/
def cleanPath (p : String) : String := ⟨collapseSlashes p.data⟩

/-- An `http.Request` as `Send` builds it, with the redirect policy of the
client that sends it. -/
structure Request where
  method : String
  url : String
  content : Option Bytes
  header : List (String × String)
  basicAuth : Option (String × String)
  /-- Whether `client.CheckRedirect` is nil, so that the client follows redirects. -/
  followRedirects : Bool
deriving DecidableEq

/-- The part of an `http.Response` the code reads: status line and headers. -/
structure Response where
  Status : String
  Header : List (String × String)
deriving DecidableEq

/-- What `client.Do` does with a request. -/
inductive DoOutcome where
  /-- A response arrived (`err == nil`); `body` is what `ioutil.ReadAll` reads. -/
  | response (resp : Response) (body : Bytes)
  /-- The server redirected to `target` and the client was about to follow. -/
  | redirect (target : String)
  /-- Any other error of `client.Do`. -/
  | failure (msg : String)
deriving DecidableEq

/-- The mutable state of the process and of the machine it runs on. -/
structure World where
  /-- The package variable `tempDirPath`. -/
  tempDirPath : String
  /-- The regular files, by cleaned path. Directories are not represented:
  `os.MkdirAll` leaves the state unchanged and creating a file always succeeds. -/
  files : String → Option Bytes
  /-- The requests handed to `client.Do` so far, oldest first. -/
  sent : List Request
  /-- The lines printed to the standard output so far, oldest first. -/
  console : List String

/-- The state of a freshly started process on a machine with the given files. -/
def World.init (files : String → Option Bytes) : World :=
  { tempDirPath := "", files := files, sent := [], console := [] }

/-- What lies outside the program: the network, the version constant, the
outcome of `ioutil.TempDir`, and how many bytes one `Read` call delivers. -/
structure Env where
  /-- The value of `GetVersion()`, declared outside the files modelled here. -/
  version : String
  /-- The outcome of `http.NewRequest(method, url, body)`: `true` when it
  returns no error. -/
  newRequestOk : String → String → Bool
  /-- The function `client.Do`, which may depend on the earlier requests. -/
  clientDo : List Request → Request → DoOutcome
  /-- The outcome of `ioutil.TempDir`: the system temporary directory and the
  random suffix of the new directory, or `none` for an error. -/
  tempDir : Option (String × String)
  /-- How many bytes a `Read` returns when the given number is available
  (clamped by `readCount` to what a read can return). -/
  readLen : Nat → Nat

/-- Where a computation stops: with a value, or with the process ended by
`os.Exit` (through `Exit` and `CheckError`) or by a run-time panic. -/
inductive Result (α : Type) where
  | ok (val : α) (w : World)
  | exited (msg : String) (w : World)

/-- The world in which a computation stopped. -/
def Result.world {α : Type} : Result α → World
  | .ok _ w => w
  | .exited _ w => w

/-- Whether the computation returned to its caller. -/
def Result.returned {α : Type} : Result α → Bool
  | .ok _ _ => true
  | .exited _ _ => false

/-- A computation over the world. -/
def Proc (α : Type) : Type := World → Result α

instance : Monad Proc where
  pure a := fun w => Result.ok a w
  bind m f := fun w =>
    match m w with
    | Result.ok a w1 => f a w1
    | Result.exited msg w1 => Result.exited msg w1

/-- Modelled from the spec: `Exit`, declared outside the files present here;
every fatal condition terminates the process-level operation. -/
def Exit (msg : String) : Proc Unit := fun w => Result.exited msg w

/-- Modelled from the spec: `CheckError`, declared outside the files present
here; an error is fatal and terminates the process, no error is a no-op. -/
def CheckError (err : Option String) : Proc Unit :=
  match err with
  | some msg => Exit msg
  | none => pure ()

/-- The call `fmt.Println(line)`. -/
def Println (line : String) : Proc Unit :=
  fun w => Result.ok () { w with console := w.console ++ [line] }

/-! ## File system operations -/

/-- The content of the regular file at a path, if there is one. -/
def readFile (w : World) (path : String) : Option Bytes := w.files (cleanPath path)

/-- The files after the file at `path` is given the content `content`. -/
def writeFile (files : String → Option Bytes) (path : String) (content : Bytes) :
    String → Option Bytes :=
  fun q => if q = cleanPath path then some content else files q

/-- The files after the file at `path` is removed. -/
def removeFile (files : String → Option Bytes) (path : String) : String → Option Bytes :=
  fun q => if q = cleanPath path then none else files q

/-- The function `IsPathExists`. -/
def IsPathExists (path : String) : Proc Bool :=
  fun w => Result.ok (readFile w path).isSome w

/-- The call `os.Remove(path)` followed by `CheckError`; removing a regular
file does not fail in this file system. -/
def Remove (path : String) : Proc Unit :=
  fun w => Result.ok () { w with files := removeFile w.files path }

/-- The call `os.Create(path)` followed by `CheckError`: the file exists and
is empty; creating a file does not fail in this file system. -/
def Create (path : String) : Proc Unit :=
  fun w => Result.ok () { w with files := writeFile w.files path [] }

/-- The function `createFileWithContent`. -/
def createFileWithContent (filePath : String) (content : Bytes) : Proc Unit :=
  fun w => Result.ok () { w with files := writeFile w.files filePath content }

/-! ## The temporary directory variable -/

/-- The function `GetTempDirPath`. -/
def GetTempDirPath : Proc String := fun w =>
  if w.tempDirPath = "" then
    Result.exited "Function cannot be used before 'tempDirPath' is created." w
  else Result.ok w.tempDirPath w

/-- The call `ioutil.TempDir("", pfx)`: a new directory named `pfx` plus a
random suffix inside the system temporary directory. -/
def TempDir (env : Env) (pfx : String) : Option String :=
  env.tempDir.map fun ds => ds.1 ++ "/" ++ pfx ++ ds.2

/-- The function `CreateTempDirPath`. -/
def CreateTempDirPath (env : Env) : Proc Unit := fun w =>
  if w.tempDirPath ≠ "" then
    Result.exited "'tempDirPath' has already been initialized." w
  else
    match TempDir env "jfrog.cli." with
    | none => Result.exited "ioutil.TempDir failed" w
    | some path => Result.ok () { w with tempDirPath := path }

/-- The function `RemoveTempDir`: when the directory exists, everything below it
is removed. The variable `tempDirPath` keeps its value. -/
def RemoveTempDir : Proc Unit := fun w =>
  if w.tempDirPath = "" then Result.ok () w
  else
    Result.ok () { w with
      files := fun q =>
        if (cleanPath (w.tempDirPath ++ "/")).isPrefixOf q then none else w.files q }

/-! ## HTTP -/

/-- The method `Header.Set` on a header with canonical keys. -/
def headerSet (h : List (String × String)) (name value : String) : List (String × String) :=
  h.filter (fun e => e.1 ≠ name) ++ [(name, value)]

/-- The method `Header.Get`: the first value stored under the name, or "". -/
def headerGet (h : List (String × String)) (name : String) : String :=
  match h.find? (fun e => e.1 = name) with
  | some e => e.2
  | none => ""

/-- The request `Send` hands to `client.Do`: basic authentication when both
user and password are non-empty, the user agent header, then the caller's
headers, and the redirect policy. -/
def buildRequest (env : Env) (method url : String) (content : Option Bytes)
    (headers : List (String × String)) (allowRedirect : Bool) (user password : String) :
    Request :=
  { method := method
    url := url
    content := content
    header := headers.foldl (fun h e => headerSet h e.1 e.2)
      [("User-Agent", "jfrog-cli-go/" ++ env.version)]
    basicAuth := if user ≠ "" ∧ password ≠ "" then some (user, password) else none
    followRedirects := allowRedirect }

/-- The four results of `Send`. -/
structure SendResult where
  /-- The response; `none` stands for a response the caller must not read
  (nil, or the redirect response `client.Do` hands back with its error). -/
  resp : Option Response
  respBody : Bytes
  redirectUrl : String
  err : Option String

/-- The function `Send`. Without `allowRedirect` the client's `CheckRedirect`
records the target in `redirectUrl` and stops with an error, and any error of
`client.Do` is returned to the caller; with `allowRedirect` an error of
`client.Do` goes to `CheckError` (a client that follows redirects reports none,
so a redirect outcome counts as such an error). -/
def Send (env : Env) (method url : String) (content : Option Bytes)
    (headers : List (String × String)) (allowRedirect : Bool) (user password : String) :
    Proc SendResult := fun w =>
  if env.newRequestOk method url = false then
    Result.exited "http.NewRequest failed" w
  else
    let req := buildRequest env method url content headers allowRedirect user password
    let w1 : World := { w with sent := w.sent ++ [req] }
    match env.clientDo w.sent req with
    | DoOutcome.response resp body =>
      Result.ok { resp := some resp, respBody := body, redirectUrl := "", err := none } w1
    | DoOutcome.redirect target =>
      if allowRedirect then Result.exited "redirect" w1
      else Result.ok { resp := none, respBody := [], redirectUrl := target,
                       err := some "redirect" } w1
    | DoOutcome.failure msg =>
      if allowRedirect then Result.exited msg w1
      else Result.ok { resp := none, respBody := [], redirectUrl := "", err := some msg } w1

/-- The function `SendGet`. -/
def SendGet (env : Env) (url : String) (headers : List (String × String))
    (allowRedirect : Bool) (user password : String) : Proc SendResult :=
  Send env "GET" url none headers allowRedirect user password

/-- The expression `resp.Status`. -/
def statusOf (resp : Option Response) : String := (resp.map fun r => r.Status).getD ""

/-- The path at which `downloadFileRange` writes chunk `currentSplit`. -/
def chunkWritePath (tempDir : String) (flags : ConcurrentDownloadFlags) (currentSplit : Int) :
    String :=
  let tempLoclPath := tempDir ++ "/" ++ flags.LocalPath
  tempLoclPath ++ "/" ++ flags.FileName ++ "_" ++ Itoa currentSplit

/-- The function `downloadFileRange`. -/
def downloadFileRange (env : Env) (flags : ConcurrentDownloadFlags) (start stop : Int)
    (currentSplit : Int) (logMsgPrefix : String) : Proc Unit := do
  let tempDir ← GetTempDirPath
  let headers := [("Range", rangeHeader start stop)]
  let first ← SendGet env flags.DownloadPath headers false flags.User flags.Password
  let last ←
    if first.redirectUrl ≠ "" then
      SendGet env first.redirectUrl headers true flags.User flags.Password
    else do
      CheckError first.err
      pure first
  Println (logMsgPrefix ++ " [" ++ Itoa currentSplit ++ "]:" ++ " " ++
    statusOf last.resp ++ "...")
  createFileWithContent (chunkWritePath tempDir flags currentSplit) last.respBody

/-! ## Reassembly -/

/-- The capacity of the buffer `buf` of `AppendFile`. -/
def appendBufLen : Nat := 1024000

/-- The number `n` returned by `reader.Read(buf)` when `avail` bytes are left:
zero only at the end of the file, otherwise between one and the buffer length. -/
def readCount (env : Env) (avail : Nat) : Nat :=
  if avail = 0 then 0 else max 1 (min (env.readLen avail) (min avail appendBufLen))

/-- The copy loop of `AppendFile`: `remaining` is what the reader has not
delivered yet, `written` what went to the writer. Every round with `n > 0`
consumes a byte, so `remaining.length + 1` rounds of fuel reach the `break`. -/
def copyLoop (env : Env) : Nat → Bytes → Bytes → Bytes
  | 0, _, written => written
  | fuel + 1, remaining, written =>
    let n := readCount env remaining.length
    if n = 0 then written
    else copyLoop env fuel (remaining.drop n) (written ++ remaining.take n)

/-- The function `AppendFile`; `destPath` is the path behind the open
`destFile`, whose offset is the end of what was written to it. -/
def AppendFile (env : Env) (srcPath destPath : String) : Proc Unit := fun w =>
  match readFile w srcPath with
  | none => Result.exited "open: no such file" w
  | some content =>
    let copied := copyLoop env (content.length + 1) content []
    let old := (readFile w destPath).getD []
    Result.ok () { w with files := writeFile w.files destPath (old ++ copied) }

/-- The value of `flags.FileName` after the adjustment that follows the
join barrier: the destination path. -/
def destFileName (flags : ConcurrentDownloadFlags) : String :=
  if !flags.Flat && flags.LocalPath != "" then flags.LocalPath ++ "/" ++ flags.FileName
  else flags.FileName

/-- The path `tempFilePath` the reassembly loop opens for chunk `i`. -/
def chunkReadPath (tempDir : String) (flags : ConcurrentDownloadFlags) (i : Int) : String :=
  tempDir ++ "/" ++ destFileName flags ++ "_" ++ Itoa i

/-- The reassembly loop, over the values the counter takes. -/
def appendChunks (env : Env) (flags : ConcurrentDownloadFlags) : List Nat → Proc Unit
  | [] => pure ()
  | i :: rest => do
    let tempDir ← GetTempDirPath
    AppendFile env (chunkReadPath tempDir flags (Int.ofNat i)) (destFileName flags)
    appendChunks env flags rest

/-- The part of `DownloadFileConcurrently` after `wg.Wait()`. -/
def reassemble (env : Env) (flags : ConcurrentDownloadFlags) (logMsgPrefix : String) :
    Proc Unit := do
  let dest := destFileName flags
  if (← IsPathExists dest) then Remove dest
  Create dest
  appendChunks env flags (List.range flags.SplitCount.toNat)
  Println (logMsgPrefix ++ " Done downloading.")

/-- The goroutines of `DownloadFileConcurrently`, run one after the other in
the order given; an exit in one of them ends the process. -/
def fanOut (env : Env) (flags : ConcurrentDownloadFlags) (logMsgPrefix : String) :
    List RangeCall → Proc Unit
  | [] => pure ()
  | c :: rest => do
    downloadFileRange env flags c.start c.stop c.index logMsgPrefix
    fanOut env flags logMsgPrefix rest

/-- The function `DownloadFileConcurrently`. The scheduler `sched` decides in
which order the planned goroutines run. -/
def DownloadFileConcurrently (env : Env) (sched : List RangeCall → List RangeCall)
    (flags : ConcurrentDownloadFlags) (logMsgPrefix : String) : Proc Unit := fun w =>
  match plannedCalls flags with
  | none => Result.exited "panic: runtime error: integer divide by zero" w
  | some calls =>
    (do fanOut env flags logMsgPrefix (sched calls); reassemble env flags logMsgPrefix) w

/-! ## The probe -/

/-- The call `strings.LastIndex(s, sep)` for a separator of one character:
the index of its last occurrence, or -1. -/
def LastIndex : List Char → Char → Int
  | [], _ => -1
  | x :: xs, sep =>
    let r := LastIndex xs sep
    if r ≠ -1 then r + 1 else if x = sep then 0 else -1

/-- The function `GetFileAndDirFromPath`; the result is `(fileName, dir)`. -/
def GetFileAndDirFromPath (path : String) : String × String :=
  let index := LastIndex path.data '/'
  let index := if index = -1 then LastIndex path.data '\\' else index
  if index ≠ -1 then
    (⟨path.data.drop (index + 1).toNat⟩, ⟨path.data.take index.toNat⟩)
  else (path, "")

/-! ## The command `DownloadFile` of `bintray/commands` -/

/-- The function `commands.DownloadFile`: the temporary directory is created,
then the download `body` runs (`utils.DownloadBintrayFile`, declared outside
the files present here), then the deferred `RemoveTempDir`. -/
def commandsDownloadFile (env : Env) (body : Proc Unit) : Proc Unit := do
  CreateTempDirPath env
  body
  RemoveTempDir

/-- The first request of `downloadFileRange`: the ranged GET to `DownloadPath`
with redirect-follow disabled. -/
def firstRequest (env : Env) (flags : ConcurrentDownloadFlags) (start stop : Int) : Request :=
  buildRequest env "GET" flags.DownloadPath none [("Range", rangeHeader start stop)] false
    flags.User flags.Password

/-- The second request of `downloadFileRange`: the ranged GET to the redirect
target with redirect-follow enabled. -/
def secondRequest (env : Env) (flags : ConcurrentDownloadFlags) (start stop : Int)
    (target : String) : Request :=
  buildRequest env "GET" target none [("Range", rangeHeader start stop)] true
    flags.User flags.Password

/-- The bytes `data[start..stop)` of a byte sequence. -/
def sliceBytes (data : Bytes) (start stop : Int) : Bytes :=
  (data.drop start.toNat).take (stop - start).toNat

/-! ## Comparing runs -/

/-- The operations of this file that touch the temporary directory variable. -/
inductive TempOp where
  | create
  | get
  | remove
  | fetch (flags : ConcurrentDownloadFlags) (start stop i : Int) (logMsgPrefix : String)
  | transfer (sched : List RangeCall → List RangeCall) (flags : ConcurrentDownloadFlags)
      (logMsgPrefix : String)

/-- Whether the operation is `CreateTempDirPath`. -/
def TempOp.isCreate : TempOp → Bool
  | TempOp.create => true
  | _ => false

/-- The computation an operation stands for. -/
def runTempOp (env : Env) : TempOp → Proc Unit
  | TempOp.create => CreateTempDirPath env
  | TempOp.get => do
    let _ ← GetTempDirPath
    pure ()
  | TempOp.remove => RemoveTempDir
  | TempOp.fetch flags start stop i logMsgPrefix =>
    downloadFileRange env flags start stop i logMsgPrefix
  | TempOp.transfer sched flags logMsgPrefix =>
    DownloadFileConcurrently env sched flags logMsgPrefix

/-- A process that performs the operations one after the other. -/
def runOps (env : Env) : List TempOp → Proc Unit
  | [] => pure ()
  | op :: rest => do
    runTempOp env op
    runOps env rest

/-- Whether some `CreateTempDirPath` of the run returned to its caller. -/
def createSucceeded (env : Env) : List TempOp → World → Bool
  | [], _ => false
  | op :: rest, w =>
    match runTempOp env op w with
    | Result.ok _ w1 => op.isCreate || createSucceeded env rest w1
    | Result.exited _ _ => false

/-! ## A concrete transfer, for evaluating the definitions -/

/-- A ten-byte remote file. -/
def exampleData : Bytes := [10, 11, 12, 13, 14, 15, 16, 17, 18, 19]

/-- A transfer of the ten-byte file in three ranges. -/
def exampleFlags : ConcurrentDownloadFlags :=
  { DownloadPath := "http://origin/f", FileName := "f", LocalPath := "", FileSize := 10,
    SplitCount := 3, Flat := false, User := "", Password := "" }

/-- An origin that answers a ranged GET for a planned range of `flags` with
the bytes of that range, and refuses anything else. -/
def rangeOrigin (data : Bytes) (flags : ConcurrentDownloadFlags) (req : Request) : DoOutcome :=
  match ((plannedCalls flags).getD []).find?
      (fun c => headerGet req.header "Range" = rangeHeader c.start c.stop) with
  | some c =>
    DoOutcome.response { Status := "206 Partial Content", Header := [] }
      (sliceBytes data c.start c.stop)
  | none => DoOutcome.failure "416 Requested Range Not Satisfiable"

/-- An environment whose network is `rangeOrigin` for the example transfer. -/
def exampleEnv : Env :=
  { version := "1.0.0"
    newRequestOk := fun _ _ => true
    clientDo := fun _ req => rangeOrigin exampleData exampleFlags req
    tempDir := some ("/tmp", "7")
    readLen := fun n => n }

/-- A process whose temporary directory has been created, on an empty disk. -/
def exampleWorld : World :=
  { tempDirPath := "/tmp/jfrog.cli.7", files := fun _ => none, sent := [], console := [] }

/-- The example transfer with the flat flag set and a local directory given. -/
def flatFlags : ConcurrentDownloadFlags :=
  { exampleFlags with LocalPath := "out", Flat := true }

/-- A transfer of a two-byte file in three ranges. -/
def smallFlags : ConcurrentDownloadFlags :=
  { exampleFlags with FileSize := 2 }

theorem wrap64_of_inInt64 {x : Int} (h : inInt64 x) : wrap64 x = x := by
  unfold wrap64; unfold inInt64 at h; omega

/-- The quotient and remainder of the planner, for a non-negative size and a
positive split count, are the Euclidean ones and fit an `int64`. -/
theorem chunk_facts {FS SC : Int} (h0 : 0 ≤ FS) (h1 : FS < 2 ^ 63) (h2 : 1 ≤ SC) :
    chunkSizeOf FS SC = FS / SC ∧ modOf FS SC = FS % SC ∧ 0 ≤ FS / SC ∧ FS / SC ≤ FS
      ∧ (FS / SC) * SC + FS % SC = FS ∧ 0 ≤ FS % SC ∧ FS % SC < SC := by
  have hsc : (0 : Int) ≤ SC := by omega
  have hq0 : 0 ≤ FS / SC := Int.ediv_nonneg h0 hsc
  have hdm : (FS / SC) * SC + FS % SC = FS := by
    have := Int.ediv_add_emod FS SC
    linarith [mul_comm SC (FS / SC)]
  have hm0 : 0 ≤ FS % SC := Int.emod_nonneg _ (by omega)
  have hm1 : FS % SC < SC := Int.emod_lt_of_pos _ (by omega)
  have hqle : FS / SC ≤ FS := by nlinarith
  refine ⟨?_, ?_, hq0, hqle, hdm, hm0, hm1⟩
  · unfold chunkSizeOf
    rw [Int.tdiv_eq_ediv h0 hsc]
    exact wrap64_of_inInt64 ⟨by omega, by omega⟩
  · unfold modOf
    exact Int.tmod_eq_emod h0 hsc

/-- Closed form of one planned call: no intermediate result leaves `int64`. -/
theorem rangeCall_closed {FS SC : Int} (h0 : 0 ≤ FS) (h1 : FS < 2 ^ 63) (h2 : 1 ≤ SC)
    (h3 : SC < 2 ^ 63) (i : Nat) (hi : (i : Int) < SC) :
    rangeCall FS SC i =
      { start := FS / SC * i,
        stop := if (i : Int) = SC - 1 then FS else FS / SC * (i + 1),
        index := i } := by
  obtain ⟨hq, hm, hq0, hqle, hdm, hm0, hm1⟩ := chunk_facts h0 h1 h2
  have hi0 : (0 : Int) ≤ i := Int.ofNat_nonneg i
  have hstart : FS / SC * i ≤ FS / SC * SC := by nlinarith
  have hstop : FS / SC * (i + 1) ≤ FS / SC * SC := by nlinarith
  have hs0 : 0 ≤ FS / SC * i := by positivity
  have hs1 : 0 ≤ FS / SC * ((i : Int) + 1) := by positivity
  have w1 : wrap64 ((i : Int) + 1) = i + 1 := wrap64_of_inInt64 ⟨by omega, by omega⟩
  have w2 : wrap64 (SC - 1) = SC - 1 := wrap64_of_inInt64 ⟨by omega, by omega⟩
  have w3 : wrap64 (FS / SC * i) = FS / SC * i := wrap64_of_inInt64 ⟨by omega, by omega⟩
  have w4 : wrap64 (FS / SC * (i + 1)) = FS / SC * (i + 1) :=
    wrap64_of_inInt64 ⟨by omega, by omega⟩
  unfold rangeCall
  simp only [hq, hm, w1, w2, w3, w4]
  by_cases hlast : (i : Int) = SC - 1
  · simp only [hlast, if_true]
    have : FS / SC * (SC - 1 + 1) + FS % SC = FS := by
      have : SC - 1 + 1 = SC := by ring
      rw [this]; exact hdm
    rw [this, wrap64_of_inInt64 ⟨by omega, by omega⟩]
  · simp only [hlast, if_false]

/-- The planned calls as a list, in closed form. -/
theorem plannedCalls_closed (flags : ConcurrentDownloadFlags)
    (h0 : 0 ≤ flags.FileSize) (h1 : flags.FileSize < 2 ^ 63)
    (h2 : 1 ≤ flags.SplitCount) (h3 : flags.SplitCount < 2 ^ 63) :
    ∃ calls, plannedCalls flags = some calls ∧ calls.length = flags.SplitCount.toNat ∧
      ∀ (i : Nat) (c : RangeCall), calls[i]? = some c →
        (i : Int) < flags.SplitCount ∧ c.index = i ∧
        c.start = flags.FileSize / flags.SplitCount * i ∧
        c.stop = if (i : Int) = flags.SplitCount - 1 then flags.FileSize
                 else flags.FileSize / flags.SplitCount * (i + 1) := by
  refine ⟨(List.range flags.SplitCount.toNat).map
    fun (i : Nat) => rangeCall flags.FileSize flags.SplitCount (Int.ofNat i), ?_, ?_, ?_⟩
  · unfold plannedCalls
    rw [if_neg (by omega)]
  · simp
  · intro i c hc
    rw [List.getElem?_map] at hc
    have hlt : i < flags.SplitCount.toNat := by
      by_contra hge
      rw [List.getElem?_eq_none (by simpa using hge)] at hc
      simp at hc
    rw [List.getElem?_range hlt] at hc
    simp only [Option.map_some', Option.some.injEq] at hc
    have hi : (i : Int) < flags.SplitCount := by omega
    rw [Int.ofNat_eq_coe, rangeCall_closed h0 h1 h2 h3 i hi] at hc
    subst hc
    exact ⟨hi, rfl, rfl, rfl⟩

/-- C1. For every FileSize >= 0 and SplitCount >= 1 (both of their machine
types), the ranges planned by the loop of `DownloadFileConcurrently`, read as
half-open `[start, end)`, are well-formed, sorted by index, pairwise disjoint
and contiguous, the first starts at 0, the last ends at FileSize, and an offset
lies in `[0, FileSize)` exactly when it lies in one of the ranges. -/
theorem C1_planned_ranges_partition (flags : ConcurrentDownloadFlags)
    (h0 : 0 ≤ flags.FileSize) (h1 : flags.FileSize < 2 ^ 63)
    (h2 : 1 ≤ flags.SplitCount) (h3 : flags.SplitCount < 2 ^ 63) :
    ∃ calls, plannedCalls flags = some calls ∧
      (∀ (i : Nat) (c : RangeCall), calls[i]? = some c → c.start ≤ c.stop) ∧
      (∀ (i j : Nat) (ci cj : RangeCall), i < j → calls[i]? = some ci → calls[j]? = some cj →
        ci.start ≤ cj.start ∧ ci.stop ≤ cj.start) ∧
      (∀ (i j : Nat) (ci cj : RangeCall), i ≠ j → calls[i]? = some ci → calls[j]? = some cj →
        ∀ x : Int, ¬ ((ci.start ≤ x ∧ x < ci.stop) ∧ (cj.start ≤ x ∧ x < cj.stop))) ∧
      (∀ (i : Nat) (ci cj : RangeCall), calls[i]? = some ci → calls[i + 1]? = some cj →
        ci.stop = cj.start) ∧
      (∃ c, calls.head? = some c ∧ c.start = 0) ∧
      (∃ c, calls.getLast? = some c ∧ c.stop = flags.FileSize) ∧
      (∀ x : Int, (0 ≤ x ∧ x < flags.FileSize) ↔ ∃ c ∈ calls, c.start ≤ x ∧ x < c.stop) := by
  obtain ⟨calls, hcalls, hlen, hclosed⟩ := plannedCalls_closed flags h0 h1 h2 h3
  obtain ⟨-, -, hq0, hqle, hdm, hm0, hm1⟩ := chunk_facts h0 h1 h2
  set q := flags.FileSize / flags.SplitCount with hq
  -- every range is well-formed and lies inside `[0, FileSize]`
  have hwf : ∀ (i : Nat) (c : RangeCall), calls[i]? = some c →
      0 ≤ c.start ∧ c.start ≤ c.stop ∧ c.stop ≤ flags.FileSize := by
    intro i c hc
    obtain ⟨hi, -, hs, he⟩ := hclosed i c hc
    have hi0 : (0 : Int) ≤ i := Int.ofNat_nonneg i
    rw [hs, he]
    by_cases hl : (i : Int) = flags.SplitCount - 1
    · rw [if_pos hl]
      refine ⟨by positivity, ?_, le_refl _⟩
      nlinarith
    · rw [if_neg hl]
      refine ⟨by positivity, by nlinarith, ?_⟩
      have : (i : Int) + 1 ≤ flags.SplitCount := by omega
      nlinarith
  -- an earlier range ends before a later one starts
  have hord : ∀ (i j : Nat) (ci cj : RangeCall), i < j → calls[i]? = some ci →
      calls[j]? = some cj → ci.stop ≤ cj.start := by
    intro i j ci cj hij hi hj
    obtain ⟨hib, -, -, hie⟩ := hclosed i ci hi
    obtain ⟨hjb, -, hjs, -⟩ := hclosed j cj hj
    have hl : ¬ (i : Int) = flags.SplitCount - 1 := by omega
    rw [hie, if_neg hl, hjs]
    have : (i : Int) + 1 ≤ j := by omega
    nlinarith
  have hpos : 0 < calls.length := by omega
  refine ⟨calls, hcalls, fun i c hc => (hwf i c hc).2.1, ?_, ?_, ?_, ?_, ?_, ?_⟩
  · intro i j ci cj hij hi hj
    have := hord i j ci cj hij hi hj
    exact ⟨le_trans (hwf i ci hi).2.1 this, this⟩
  · intro i j ci cj hij hi hj x hx
    rcases Nat.lt_or_gt_of_ne hij with h | h
    · have := hord i j ci cj h hi hj
      omega
    · have := hord j i cj ci h hj hi
      omega
  · intro i ci cj hi hj
    obtain ⟨hib, -, -, hie⟩ := hclosed i ci hi
    obtain ⟨hjb, -, hjs, -⟩ := hclosed (i + 1) cj hj
    have hl : ¬ (i : Int) = flags.SplitCount - 1 := by push_cast at hjb; omega
    rw [hie, if_neg hl, hjs]
    push_cast; ring
  · have h0c : calls[0]? = some calls[0] := List.getElem?_eq_getElem hpos
    refine ⟨calls[0], ?_, ?_⟩
    · rw [List.head?_eq_getElem?]; exact h0c
    · rw [(hclosed 0 _ h0c).2.2.1]; simp
  · have hlast : calls[calls.length - 1]? = some calls[calls.length - 1] :=
      List.getElem?_eq_getElem (by omega)
    refine ⟨calls[calls.length - 1], ?_, ?_⟩
    · rw [List.getLast?_eq_getElem?]; exact hlast
    · rw [(hclosed _ _ hlast).2.2.2, if_pos]
      rw [hlen]; omega
  · intro x
    constructor
    · rintro ⟨hx0, hx1⟩
      by_cases hin : x < q * (flags.SplitCount - 1)
      · -- an inner range: index `x / q`
        have hqpos : 0 < q := by
          by_contra hq'
          have : q = 0 := by omega
          rw [this] at hin; omega
        have hdiv0 : 0 ≤ x / q := Int.ediv_nonneg hx0 hq0
        have hlo : x / q * q ≤ x := Int.ediv_mul_le x (by omega)
        have hhi : x < (x / q + 1) * q := Int.lt_ediv_add_one_mul_self x hqpos
        have hidx : x / q < flags.SplitCount - 1 := by
          by_contra hge
          have : flags.SplitCount - 1 ≤ x / q := by omega
          nlinarith
        have hn : (x / q).toNat < calls.length := by omega
        have hget : calls[(x / q).toNat]? = some calls[(x / q).toNat] :=
          List.getElem?_eq_getElem hn
        obtain ⟨-, -, hs, he⟩ := hclosed _ _ hget
        have hcast : (((x / q).toNat : Nat) : Int) = x / q := Int.toNat_of_nonneg hdiv0
        rw [hcast] at hs he
        rw [if_neg (by omega)] at he
        refine ⟨_, List.getElem_mem hn, ?_, ?_⟩
        · rw [hs]; linarith [mul_comm q (x / q)]
        · rw [he]; linarith [mul_comm q (x / q + 1)]
      · -- the last range
        have hn : calls.length - 1 < calls.length := by omega
        have hget : calls[calls.length - 1]? = some calls[calls.length - 1] :=
          List.getElem?_eq_getElem hn
        obtain ⟨-, -, hs, he⟩ := hclosed _ _ hget
        have hcast : ((calls.length - 1 : Nat) : Int) = flags.SplitCount - 1 := by
          rw [hlen]; omega
        rw [hcast] at hs he
        rw [if_pos rfl] at he
        refine ⟨_, List.getElem_mem hn, ?_, ?_⟩
        · rw [hs]; omega
        · rw [he]; exact hx1
    · rintro ⟨c, hc, hcs, hce⟩
      obtain ⟨i, hi⟩ := List.mem_iff_getElem?.mp hc
      obtain ⟨a, -, b⟩ := hwf i c hi
      omega

/-- C2. For every FileSize >= 0 and SplitCount >= 1, exactly SplitCount ranges
are planned; with chunkSize = FileSize / SplitCount, range i is
`[chunkSize*i, chunkSize*(i+1))` for i < SplitCount-1 and the last range is
`[chunkSize*(SplitCount-1), FileSize)`. SplitCount = 1 gives the single range
`[0, FileSize)`; FileSize = 10 with SplitCount = 3 gives `[0,3) [3,6) [6,10)`. -/
theorem C2_planned_ranges_formula (flags : ConcurrentDownloadFlags)
    (h0 : 0 ≤ flags.FileSize) (h1 : flags.FileSize < 2 ^ 63)
    (h2 : 1 ≤ flags.SplitCount) (h3 : flags.SplitCount < 2 ^ 63) :
    ∃ calls, plannedCalls flags = some calls ∧
      (calls.length : Int) = flags.SplitCount ∧
      (∀ (i : Nat) (c : RangeCall), calls[i]? = some c → (i : Int) < flags.SplitCount - 1 →
        c.index = i ∧
        c.start = flags.FileSize / flags.SplitCount * i ∧
        c.stop = flags.FileSize / flags.SplitCount * (i + 1)) ∧
      (∃ c, calls.getLast? = some c ∧ c.index = flags.SplitCount - 1 ∧
        c.start = flags.FileSize / flags.SplitCount * (flags.SplitCount - 1) ∧
        c.stop = flags.FileSize) ∧
      (flags.SplitCount = 1 →
        calls.map (fun c => (c.start, c.stop)) = [(0, flags.FileSize)]) ∧
      (flags.FileSize = 10 → flags.SplitCount = 3 →
        calls.map (fun c => (c.start, c.stop)) = [(0, 3), (3, 6), (6, 10)]) := by
  obtain ⟨calls, hcalls, hlen, hclosed⟩ := plannedCalls_closed flags h0 h1 h2 h3
  refine ⟨calls, hcalls, by omega, ?_, ?_, ?_, ?_⟩
  · intro i c hc hi
    obtain ⟨-, hidx, hs, he⟩ := hclosed i c hc
    rw [if_neg (by omega)] at he
    exact ⟨hidx, hs, he⟩
  · have hn : calls.length - 1 < calls.length := by omega
    have hget : calls[calls.length - 1]? = some calls[calls.length - 1] :=
      List.getElem?_eq_getElem hn
    obtain ⟨-, hidx, hs, he⟩ := hclosed _ _ hget
    have hcast : ((calls.length - 1 : Nat) : Int) = flags.SplitCount - 1 := by
      rw [hlen]; omega
    rw [hcast] at hidx hs he
    rw [if_pos rfl] at he
    exact ⟨_, by rw [List.getLast?_eq_getElem?]; exact hget, hidx, hs, he⟩
  · intro hone
    have hl1 : calls.length = 1 := by omega
    match calls, hl1, hclosed with
    | [c], _, hcl =>
      obtain ⟨-, -, hs, he⟩ := hcl 0 c rfl
      rw [if_pos (by simp [hone])] at he
      simp [hs, he]
  · intro hFS hSC
    have hplan : plannedCalls flags = some [⟨0, 3, 0⟩, ⟨3, 6, 1⟩, ⟨6, 10, 2⟩] := by
      unfold plannedCalls
      rw [hFS, hSC]
      decide
    rw [hplan] at hcalls
    rw [← Option.some.inj hcalls]
    rfl

/-- The partition of C1 at the example transfer: ten bytes in three ranges. -/
theorem C1_planned_ranges_partition_witness :
    ∃ calls, plannedCalls exampleFlags = some calls ∧
      (∃ c, calls.head? = some c ∧ c.start = 0) ∧
      (∃ c, calls.getLast? = some c ∧ c.stop = exampleFlags.FileSize) ∧
      (∀ x : Int, (0 ≤ x ∧ x < exampleFlags.FileSize) ↔
        ∃ c ∈ calls, c.start ≤ x ∧ x < c.stop) := by
  obtain ⟨calls, h, _, _, _, _, hh, hl, hc⟩ :=
    C1_planned_ranges_partition exampleFlags (by decide) (by decide) (by decide) (by decide)
  exact ⟨calls, h, hh, hl, hc⟩

/-- The formula of C2 at the example transfer: `[0,3) [3,6) [6,10)`. -/
theorem C2_planned_ranges_formula_witness :
    ∃ calls, plannedCalls exampleFlags = some calls ∧
      (calls.length : Int) = exampleFlags.SplitCount ∧
      calls.map (fun c => (c.start, c.stop)) = [(0, 3), (3, 6), (6, 10)] := by
  obtain ⟨calls, h, hlen, _, _, _, hex⟩ :=
    C2_planned_ranges_formula exampleFlags (by decide) (by decide) (by decide) (by decide)
  exact ⟨calls, h, hlen, hex rfl rfl⟩

/-! ## The computation monad -/

theorem Proc.bind_apply {α β : Type} (m : Proc α) (f : α → Proc β) (w : World) :
    (m >>= f) w =
      match m w with
      | Result.ok a w1 => f a w1
      | Result.exited msg w1 => Result.exited msg w1 := rfl

theorem Proc.pure_apply {α : Type} (a : α) (w : World) :
    (pure a : Proc α) w = Result.ok a w := rfl

theorem readFile_writeFile_same (w : World) (files : String → Option Bytes)
    (path : String) (content : Bytes) (h : w.files = writeFile files path content) :
    readFile w path = some content := by
  unfold readFile
  rw [h]
  simp [writeFile]

theorem downloadFileRange_unfold (env : Env) (flags : ConcurrentDownloadFlags)
    (start stop i : Int) (pfx : String) (w : World)
    (htmp : w.tempDirPath ≠ "") (hurl : env.newRequestOk "GET" flags.DownloadPath = true) :
    downloadFileRange env flags start stop i pfx w =
      match env.clientDo w.sent (firstRequest env flags start stop) with
      | DoOutcome.response resp body =>
        Result.ok ()
          { w with
            sent := w.sent ++ [firstRequest env flags start stop]
            console := w.console ++ [pfx ++ " [" ++ Itoa i ++ "]:" ++ " " ++ resp.Status ++ "..."]
            files := writeFile w.files (chunkWritePath w.tempDirPath flags i) body }
      | DoOutcome.redirect target =>
        if target = "" then
          Result.exited "redirect" { w with sent := w.sent ++ [firstRequest env flags start stop] }
        else if env.newRequestOk "GET" target = false then
          Result.exited "http.NewRequest failed"
            { w with sent := w.sent ++ [firstRequest env flags start stop] }
        else
          match env.clientDo (w.sent ++ [firstRequest env flags start stop])
              (secondRequest env flags start stop target) with
          | DoOutcome.response resp body =>
            Result.ok ()
              { w with
                sent := w.sent ++ [firstRequest env flags start stop] ++
                  [secondRequest env flags start stop target]
                console := w.console ++
                  [pfx ++ " [" ++ Itoa i ++ "]:" ++ " " ++ resp.Status ++ "..."]
                files := writeFile w.files (chunkWritePath w.tempDirPath flags i) body }
          | DoOutcome.redirect _ =>
            Result.exited "redirect"
              { w with sent := w.sent ++ [firstRequest env flags start stop] ++
                  [secondRequest env flags start stop target] }
          | DoOutcome.failure msg =>
            Result.exited msg
              { w with sent := w.sent ++ [firstRequest env flags start stop] ++
                  [secondRequest env flags start stop target] }
      | DoOutcome.failure msg =>
        Result.exited msg { w with sent := w.sent ++ [firstRequest env flags start stop] } := by
  have hg : GetTempDirPath w = Result.ok w.tempDirPath w := by
    unfold GetTempDirPath; rw [if_neg htmp]
  have hfr : buildRequest env "GET" flags.DownloadPath none [("Range", rangeHeader start stop)]
      false flags.User flags.Password = firstRequest env flags start stop := rfl
  have hsr : ∀ target, buildRequest env "GET" target none [("Range", rangeHeader start stop)]
      true flags.User flags.Password = secondRequest env flags start stop target :=
    fun _ => rfl
  unfold downloadFileRange
  simp only [Proc.bind_apply, hg, SendGet, Send, hurl, hfr, hsr]
  cases hout : env.clientDo w.sent (firstRequest env flags start stop) with
  | response resp body =>
    simp [CheckError, Proc.pure_apply, Proc.bind_apply, Println, createFileWithContent, statusOf]
  | redirect target =>
    by_cases ht : target = ""
    · simp [ht, CheckError, Exit, Proc.bind_apply]
    · by_cases hn : env.newRequestOk "GET" target = false
      · simp [ht, hn, Proc.bind_apply, Send]
      · have hn1 : env.newRequestOk "GET" target = true := by simpa using hn
        cases hout2 : env.clientDo (w.sent ++ [firstRequest env flags start stop])
            (secondRequest env flags start stop target) with
        | response resp body =>
          simp [ht, hn1, hsr, hout2, Send, Proc.pure_apply, Proc.bind_apply, Println,
            createFileWithContent, statusOf]
        | redirect t2 => simp [ht, hn1, hsr, hout2, Send, Proc.bind_apply]
        | failure msg => simp [ht, hn1, hsr, hout2, Send, Proc.bind_apply]
  | failure msg =>
    simp [CheckError, Exit, Proc.bind_apply]

/-! ## Paths -/

theorem collapseSlashes_cons_cons (c d : Char) (rest : List Char) :
    collapseSlashes (c :: d :: rest) =
      if c = '/' ∧ d = '/' then collapseSlashes (d :: rest)
      else c :: collapseSlashes (d :: rest) := by
  rw [collapseSlashes]

theorem collapseSlashes_cons_length (c : Char) (l : List Char) :
    (collapseSlashes l).length ≤ (collapseSlashes (c :: l)).length := by
  cases l with
  | nil => simp [collapseSlashes]
  | cons d r =>
    rw [collapseSlashes_cons_cons c d r]
    split <;> simp

theorem collapseSlashes_append_length (a b : List Char) :
    (collapseSlashes b).length ≤ (collapseSlashes (a ++ b)).length := by
  induction a with
  | nil => simp
  | cons c a ih => exact le_trans ih (collapseSlashes_cons_length c (a ++ b))

theorem collapseSlashes_underscore_cons_length (r : List Char) :
    1 ≤ (collapseSlashes ('_' :: r)).length := by
  cases r with
  | nil => simp [collapseSlashes]
  | cons e r =>
    rw [collapseSlashes_cons_cons, if_neg (by simp)]
    simp

theorem collapseSlashes_underscore_length (x r : List Char) :
    (collapseSlashes x).length + 1 ≤ (collapseSlashes (x ++ '_' :: r)).length := by
  induction x with
  | nil => simpa [collapseSlashes] using collapseSlashes_underscore_cons_length r
  | cons c xs ih =>
    cases xs with
    | nil =>
      have h1 := collapseSlashes_underscore_cons_length r
      simp only [List.cons_append, List.nil_append]
      rw [collapseSlashes_cons_cons, if_neg (by simp)]
      simp only [collapseSlashes, List.length_cons, List.length_nil]
      omega
    | cons d l =>
      simp only [List.cons_append] at ih ⊢
      rw [collapseSlashes_cons_cons c d l, collapseSlashes_cons_cons c d (l ++ '_' :: r)]
      split
      · exact ih
      · simp only [List.length_cons]; omega

/-- The chunk file opened for reassembly is never the destination file. -/
theorem chunkReadPath_ne_dest (tempDir : String) (flags : ConcurrentDownloadFlags) (i : Int) :
    cleanPath (chunkReadPath tempDir flags i) ≠ cleanPath (destFileName flags) := by
  intro h
  have hlen := congrArg (fun s : String => s.data.length) h
  simp only [cleanPath, chunkReadPath, String.data_append] at hlen
  have h1 := collapseSlashes_append_length (tempDir.data ++ ("/" : String).data)
    ((destFileName flags).data ++ '_' :: (Itoa i).data)
  have h2 := collapseSlashes_underscore_length (destFileName flags).data (Itoa i).data
  have e : ("/" : String).data = ['/'] := rfl
  rw [e] at h1
  simp only [List.append_assoc, List.singleton_append, List.cons_append,
    List.nil_append] at hlen h1
  omega

/-! ## The copy loop and the reassembly loop -/

theorem readCount_zero (env : Env) : readCount env 0 = 0 := by simp [readCount]

theorem readCount_pos (env : Env) {avail : Nat} (h : 0 < avail) :
    1 ≤ readCount env avail ∧ readCount env avail ≤ avail := by
  unfold readCount
  rw [if_neg (by omega)]
  constructor
  · exact le_max_left _ _
  · apply max_le h
    exact le_trans (min_le_right _ _) (min_le_left _ _)

/-- With fuel beyond the length of what is left, the copy loop reaches its
`break` having written everything. -/
theorem copyLoop_eq (env : Env) :
    ∀ (fuel : Nat) (remaining written : Bytes), remaining.length < fuel →
      copyLoop env fuel remaining written = written ++ remaining := by
  intro fuel
  induction fuel with
  | zero => intro remaining written h; omega
  | succ fuel ih =>
    intro remaining written h
    unfold copyLoop
    by_cases hz : remaining.length = 0
    · have : remaining = [] := List.length_eq_zero.mp hz
      subst this
      simp [readCount_zero]
    · obtain ⟨h1, h2⟩ := readCount_pos env (Nat.pos_of_ne_zero hz)
      simp only
      rw [if_neg (by omega)]
      rw [ih _ _ (by simp only [List.length_drop]; omega)]
      rw [List.append_assoc, List.take_append_drop]

theorem writeFile_writeFile (files : String → Option Bytes) (path : String) (a b : Bytes) :
    writeFile (writeFile files path a) path b = writeFile files path b := by
  funext q
  simp only [writeFile]
  split <;> rfl

theorem writeFile_same (files : String → Option Bytes) (path : String) (b : Bytes) :
    writeFile files path b (cleanPath path) = some b := by
  simp [writeFile]

theorem writeFile_other (files : String → Option Bytes) (path : String) (b : Bytes)
    (q : String) (h : q ≠ cleanPath path) : writeFile files path b q = files q := by
  simp [writeFile, h]

/-- The function `AppendFile` on an existing source: the destination grows by
the whole content of the source. -/
theorem AppendFile_ok (env : Env) (srcPath destPath : String) (w : World) (content : Bytes)
    (h : readFile w srcPath = some content) :
    AppendFile env srcPath destPath w =
      Result.ok () { w with
        files := writeFile w.files destPath ((readFile w destPath).getD [] ++ content) } := by
  unfold AppendFile
  rw [h]
  simp only
  rw [copyLoop_eq env _ _ _ (Nat.lt_succ_self _)]
  simp

/-- The reassembly loop when every chunk it opens exists: the destination
grows by the chunks in the order of the counter, nothing else changes. -/
theorem appendChunks_ok (env : Env) (flags : ConcurrentDownloadFlags) (chunk : Nat → Bytes) :
    ∀ (idx : List Nat) (w : World) (old : Bytes), w.tempDirPath ≠ "" →
      readFile w (destFileName flags) = some old →
      (∀ i ∈ idx, readFile w (chunkReadPath w.tempDirPath flags (Int.ofNat i)) = some (chunk i)) →
      appendChunks env flags idx w =
        Result.ok () { w with
          files := writeFile w.files (destFileName flags) (old ++ (idx.map chunk).flatten) } := by
  intro idx
  induction idx with
  | nil =>
    intro w old _ hold _
    have : writeFile w.files (destFileName flags) (old ++ ([].map chunk).flatten) = w.files := by
      funext q
      simp only [writeFile, List.map_nil, List.flatten_nil, List.append_nil]
      split
      · next hq => rw [hq]; exact hold.symm
      · rfl
    rw [this]
    rfl
  | cons i rest ih =>
    intro w old htmp hold hch
    have hg : GetTempDirPath w = Result.ok w.tempDirPath w := by
      unfold GetTempDirPath; rw [if_neg htmp]
    have hi := hch i (List.mem_cons_self _ _)
    unfold appendChunks
    simp only [Proc.bind_apply, hg]
    rw [AppendFile_ok env _ _ w (chunk i) hi]
    simp only [hold, Option.getD_some]
    have hrest := ih
      { w with files := writeFile w.files (destFileName flags) (old ++ chunk i) }
      (old ++ chunk i) htmp (writeFile_same _ _ _)
      (by
        intro j hj
        have hne := chunkReadPath_ne_dest w.tempDirPath flags (Int.ofNat j)
        have := hch j (List.mem_cons_of_mem _ hj)
        simp only [readFile] at this ⊢
        rw [writeFile_other _ _ _ _ hne]
        exact this)
    rw [hrest]
    simp only [writeFile_writeFile, List.map_cons, List.flatten_cons, List.append_assoc]

/-- The part of `DownloadFileConcurrently` after the join barrier when every
chunk exists: the destination holds exactly the chunks in index order. -/
theorem reassemble_ok (env : Env) (flags : ConcurrentDownloadFlags) (pfx : String)
    (chunk : Nat → Bytes) (w : World) (htmp : w.tempDirPath ≠ "")
    (hch : ∀ i ∈ List.range flags.SplitCount.toNat,
      readFile w (chunkReadPath w.tempDirPath flags (Int.ofNat i)) = some (chunk i)) :
    reassemble env flags pfx w =
      Result.ok () { w with
        files := writeFile w.files (destFileName flags)
          (((List.range flags.SplitCount.toNat).map chunk).flatten)
        console := w.console ++ [pfx ++ " Done downloading."] } := by
  have key : ∀ files : String → Option Bytes, (∀ q, q ≠ cleanPath (destFileName flags) →
      files q = w.files q) →
      (do Create (destFileName flags)
          appendChunks env flags (List.range flags.SplitCount.toNat)
          Println (pfx ++ " Done downloading.") : Proc Unit) { w with files := files } =
      Result.ok () { w with
        files := writeFile w.files (destFileName flags)
          (((List.range flags.SplitCount.toNat).map chunk).flatten)
        console := w.console ++ [pfx ++ " Done downloading."] } := by
    intro files hfiles
    simp only [Proc.bind_apply, Create]
    have hrest := appendChunks_ok env flags chunk (List.range flags.SplitCount.toNat)
      { w with files := writeFile files (destFileName flags) [] } [] htmp
      (writeFile_same _ _ _)
      (by
        intro i hi
        have hne := chunkReadPath_ne_dest w.tempDirPath flags (Int.ofNat i)
        have := hch i hi
        simp only [readFile] at this ⊢
        rw [writeFile_other _ _ _ _ hne, hfiles _ hne]
        exact this)
    rw [hrest]
    simp only [Println, writeFile_writeFile, List.nil_append]
    congr 2
    funext q
    simp only [writeFile]
    split
    · rfl
    · next hq => exact hfiles q hq
  unfold reassemble
  simp only [Proc.bind_apply, IsPathExists]
  cases hex : (readFile w (destFileName flags)).isSome with
  | true =>
    simp only [if_true, Remove]
    exact key _ (fun q hq => by simp [removeFile, hq])
  | false =>
    exact key _ (fun q _ => rfl)

/-! ## The fetch and the temporary directory variable -/

theorem Result.eq_ok_of_returned (r : Result Unit) (h : r.returned = true) :
    r = Result.ok () r.world := by
  cases r with
  | ok v w => rfl
  | exited m w => simp [Result.returned] at h

theorem downloadFileRange_unset (env : Env) (flags : ConcurrentDownloadFlags)
    (start stop i : Int) (pfx : String) (w : World) (htmp : w.tempDirPath = "") :
    downloadFileRange env flags start stop i pfx w =
      Result.exited "Function cannot be used before 'tempDirPath' is created." w := by
  unfold downloadFileRange
  simp [Proc.bind_apply, GetTempDirPath, htmp]

theorem downloadFileRange_bad_url (env : Env) (flags : ConcurrentDownloadFlags)
    (start stop i : Int) (pfx : String) (w : World) (htmp : w.tempDirPath ≠ "")
    (hurl : env.newRequestOk "GET" flags.DownloadPath = false) :
    downloadFileRange env flags start stop i pfx w =
      Result.exited "http.NewRequest failed" w := by
  unfold downloadFileRange
  simp [Proc.bind_apply, GetTempDirPath, htmp, SendGet, Send, hurl]

/-- A fetch never changes `tempDirPath`, and it returns only when the variable is set. -/
theorem downloadFileRange_tempDirPath (env : Env) (flags : ConcurrentDownloadFlags)
    (start stop i : Int) (pfx : String) (w : World) :
    (downloadFileRange env flags start stop i pfx w).world.tempDirPath = w.tempDirPath ∧
    ((downloadFileRange env flags start stop i pfx w).returned = true → w.tempDirPath ≠ "") := by
  by_cases htmp : w.tempDirPath = ""
  · rw [downloadFileRange_unset env flags start stop i pfx w htmp]
    simp [Result.world, Result.returned]
  · cases hurl : env.newRequestOk "GET" flags.DownloadPath with
    | false =>
      rw [downloadFileRange_bad_url env flags start stop i pfx w htmp hurl]
      simp [Result.world, Result.returned]
    | true =>
      rw [downloadFileRange_unfold env flags start stop i pfx w htmp hurl]
      refine ⟨?_, fun _ => htmp⟩
      split
      · rfl
      · split
        · rfl
        · split
          · rfl
          · split <;> rfl
      · rfl

theorem fanOut_tempDirPath (env : Env) (flags : ConcurrentDownloadFlags) (pfx : String) :
    ∀ (calls : List RangeCall) (w : World),
      (fanOut env flags pfx calls w).world.tempDirPath = w.tempDirPath ∧
      ((fanOut env flags pfx calls w).returned = true → calls ≠ [] → w.tempDirPath ≠ "") := by
  intro calls
  induction calls with
  | nil => intro w; simp [fanOut, Proc.pure_apply, Result.world]
  | cons c rest ih =>
    intro w
    obtain ⟨h1, h2⟩ := downloadFileRange_tempDirPath env flags c.start c.stop c.index pfx w
    unfold fanOut
    simp only [Proc.bind_apply]
    cases hd : downloadFileRange env flags c.start c.stop c.index pfx w with
    | ok v w1 =>
      rw [hd] at h1 h2
      simp only [Result.world] at h1
      refine ⟨by rw [(ih w1).1, h1], fun _ _ => h2 rfl⟩
    | exited m w1 =>
      rw [hd] at h1
      simp only [Result.world] at h1
      simp [Result.world, Result.returned, h1]

/-! ## Slices -/

theorem take_append_sliceBytes (data : Bytes) (a b : Int) (ha : 0 ≤ a) (hab : a ≤ b) :
    data.take a.toNat ++ sliceBytes data a b = data.take b.toNat := by
  unfold sliceBytes
  have h : b.toNat = a.toNat + (b - a).toNat := by omega
  rw [h, List.take_add]

theorem flatten_inner_slices (data : Bytes) (q : Int) (hq : 0 ≤ q) (k : Nat) :
    ((List.range k).map fun i : Nat => sliceBytes data (q * i) (q * (i + 1))).flatten =
      data.take (q * k).toNat := by
  induction k with
  | zero => simp
  | succ k ih =>
    rw [List.range_succ, List.map_append, List.flatten_append, ih]
    simp only [List.map_cons, List.map_nil, List.flatten_cons, List.flatten_nil,
      List.append_nil]
    have h0 : 0 ≤ q * (k : Int) := by positivity
    have h1 : q * (k : Int) ≤ q * ((k : Int) + 1) := by nlinarith
    rw [take_append_sliceBytes data _ _ h0 h1]
    push_cast
    rfl

/-- Concatenating the slices of the planned ranges, in index order, gives the
whole sequence back. -/
theorem flatten_planned_slices (data : Bytes) (FS SC : Int) (hlen : (data.length : Int) = FS)
    (h64 : FS < 2 ^ 63) (h1 : 1 ≤ SC) (h2 : SC ≤ FS) :
    ((List.range SC.toNat).map fun i : Nat =>
      sliceBytes data (rangeCall FS SC (Int.ofNat i)).start
        (rangeCall FS SC (Int.ofNat i)).stop).flatten = data := by
  have h0 : 0 ≤ FS := by omega
  have h3 : SC < 2 ^ 63 := by omega
  obtain ⟨-, -, hq0, hqle, hdm, hm0, hm1⟩ := chunk_facts h0 h64 h1
  obtain ⟨n, hn⟩ : ∃ n : Nat, SC.toNat = n + 1 := ⟨SC.toNat - 1, by omega⟩
  have hnS : (n : Int) = SC - 1 := by omega
  rw [hn, List.range_succ, List.map_append, List.flatten_append]
  have hinner : ((List.range n).map fun i : Nat =>
      sliceBytes data (rangeCall FS SC (Int.ofNat i)).start
        (rangeCall FS SC (Int.ofNat i)).stop) =
      (List.range n).map fun i : Nat => sliceBytes data (FS / SC * i) (FS / SC * (i + 1)) := by
    apply List.map_congr_left
    intro i hi
    have hi' : i < n := List.mem_range.mp hi
    rw [Int.ofNat_eq_coe, rangeCall_closed h0 h64 h1 h3 i (by omega)]
    simp only
    rw [if_neg (by omega)]
  rw [hinner, flatten_inner_slices data _ hq0 n]
  simp only [List.map_cons, List.map_nil, List.flatten_cons, List.flatten_nil, List.append_nil]
  rw [Int.ofNat_eq_coe, rangeCall_closed h0 h64 h1 h3 n (by omega)]
  simp only
  rw [if_pos hnS]
  have hle : FS / SC * (n : Int) ≤ FS := by
    rw [hnS]; nlinarith
  rw [take_append_sliceBytes data _ _ (by positivity) hle]
  apply List.take_of_length_le
  omega

theorem DownloadFileConcurrently_unfold (env : Env) (sched : List RangeCall → List RangeCall)
    (flags : ConcurrentDownloadFlags) (pfx : String) (w : World) (calls : List RangeCall)
    (hplan : plannedCalls flags = some calls)
    (hfan : (fanOut env flags pfx (sched calls) w).returned = true) :
    DownloadFileConcurrently env sched flags pfx w =
      reassemble env flags pfx (fanOut env flags pfx (sched calls) w).world := by
  unfold DownloadFileConcurrently
  rw [hplan]
  simp only [Proc.bind_apply]
  rw [Result.eq_ok_of_returned _ hfan]
  rfl

theorem collapseSlashes_double (x y : List Char) :
    collapseSlashes (x ++ '/' :: '/' :: y) = collapseSlashes (x ++ '/' :: y) := by
  induction x with
  | nil =>
    simp only [List.nil_append]
    rw [collapseSlashes_cons_cons, if_pos ⟨rfl, rfl⟩]
  | cons c xs ih =>
    cases xs with
    | nil =>
      simp only [List.cons_append, List.nil_append] at ih ⊢
      rw [collapseSlashes_cons_cons c '/' ('/' :: y), collapseSlashes_cons_cons c '/' y, ih]
    | cons d l =>
      simp only [List.cons_append] at ih ⊢
      rw [collapseSlashes_cons_cons c d _, collapseSlashes_cons_cons c d _, ih]

/-- Outside the combination "flat with a local path", the path at which a
chunk is written and the path opened at reassembly name the same file. -/
theorem chunk_paths_agree (tempDir : String) (flags : ConcurrentDownloadFlags) (i : Int)
    (h : flags.Flat = false ∨ flags.LocalPath = "") :
    cleanPath (chunkWritePath tempDir flags i) = cleanPath (chunkReadPath tempDir flags i) := by
  by_cases hl : flags.LocalPath = ""
  · have hd : destFileName flags = flags.FileName := by
      unfold destFileName
      simp [hl]
    unfold chunkWritePath chunkReadPath cleanPath
    rw [hd, hl]
    congr 1
    simp only [String.data_append]
    simp only [List.append_assoc, List.singleton_append, List.nil_append, List.cons_append]
    exact collapseSlashes_double _ _
  · have hf : flags.Flat = false := by
      rcases h with h | h
      · exact h
      · exact absurd h hl
    have hd : destFileName flags = flags.LocalPath ++ "/" ++ flags.FileName := by
      unfold destFileName
      simp [hf, hl]
    unfold chunkWritePath chunkReadPath
    rw [hd]
    simp only [String.append_assoc]

/-- Outside the combination "flat with a local path", the round trip holds
for the chunk files as the fetches wrote them: if every planned range was
written with exactly its bytes, the transfer returns with the destination
equal to the data. -/
theorem roundtrip_from_written_chunks (env : Env) (sched : List RangeCall → List RangeCall)
    (flags : ConcurrentDownloadFlags) (pfx : String) (data : Bytes) (w : World)
    (calls : List RangeCall)
    (hlen : (data.length : Int) = flags.FileSize) (h64 : flags.FileSize < 2 ^ 63)
    (h1 : 1 ≤ flags.SplitCount) (h2 : flags.SplitCount ≤ flags.FileSize)
    (hflags : flags.Flat = false ∨ flags.LocalPath = "")
    (hplan : plannedCalls flags = some calls)
    (hsched : (sched calls).Perm calls)
    (hfan : (fanOut env flags pfx (sched calls) w).returned = true)
    (hwritten : ∀ c ∈ calls,
      readFile (fanOut env flags pfx (sched calls) w).world
        (chunkWritePath (fanOut env flags pfx (sched calls) w).world.tempDirPath flags c.index) =
        some (sliceBytes data c.start c.stop)) :
    (DownloadFileConcurrently env sched flags pfx w).returned = true ∧
    readFile (DownloadFileConcurrently env sched flags pfx w).world (destFileName flags) =
      some data := by
  have hcalls : calls = (List.range flags.SplitCount.toNat).map
      fun (i : Nat) => rangeCall flags.FileSize flags.SplitCount (Int.ofNat i) := by
    unfold plannedCalls at hplan
    rw [if_neg (by omega)] at hplan
    exact (Option.some.inj hplan).symm
  have hne : sched calls ≠ [] := by
    intro he
    rw [he] at hsched
    have := hsched.length_eq
    rw [hcalls] at this
    simp at this
    omega
  obtain ⟨ht1, ht2⟩ := fanOut_tempDirPath env flags pfx (sched calls) w
  have htmp : (fanOut env flags pfx (sched calls) w).world.tempDirPath ≠ "" := by
    rw [ht1]; exact ht2 hfan hne
  rw [DownloadFileConcurrently_unfold env sched flags pfx w calls hplan hfan]
  rw [reassemble_ok env flags pfx
    (fun i => sliceBytes data (rangeCall flags.FileSize flags.SplitCount (Int.ofNat i)).start
      (rangeCall flags.FileSize flags.SplitCount (Int.ofNat i)).stop) _ htmp]
  · refine ⟨rfl, ?_⟩
    simp only [Result.world, readFile]
    rw [writeFile_same, flatten_planned_slices data _ _ hlen h64 h1 h2]
  · intro i hi
    have hmem : rangeCall flags.FileSize flags.SplitCount (Int.ofNat i) ∈ calls := by
      rw [hcalls]; exact List.mem_map_of_mem _ hi
    have hw := hwritten _ hmem
    have hidx : (rangeCall flags.FileSize flags.SplitCount (Int.ofNat i)).index = Int.ofNat i :=
      rfl
    rw [hidx] at hw
    simp only [readFile] at hw ⊢
    rw [← chunk_paths_agree _ flags _ hflags]
    exact hw

set_option maxHeartbeats 4000000 in
set_option maxRecDepth 100000 in
/-- C4, evaluated at a flat transfer with a local path: chunk 0 is written
below the local directory inside the temporary directory, the reassembly loop
opens it directly inside the temporary directory, and the transfer, whose
fetches all succeeded, ends in `AppendFile` without the destination content. -/
theorem C4_flat_chunk_path_mismatch :
    cleanPath (chunkWritePath "/tmp/jfrog.cli.7" flatFlags 0) = "/tmp/jfrog.cli.7/out/f_0" ∧
    cleanPath (chunkReadPath "/tmp/jfrog.cli.7" flatFlags 0) = "/tmp/jfrog.cli.7/f_0" ∧
    (fanOut exampleEnv flatFlags "dl" [⟨0, 3, 0⟩, ⟨3, 6, 1⟩, ⟨6, 10, 2⟩] exampleWorld).returned
      = true ∧
    readFile (fanOut exampleEnv flatFlags "dl" [⟨0, 3, 0⟩, ⟨3, 6, 1⟩, ⟨6, 10, 2⟩]
      exampleWorld).world "/tmp/jfrog.cli.7/out/f_0" = some [10, 11, 12] ∧
    (DownloadFileConcurrently exampleEnv id flatFlags "dl" exampleWorld).returned = false ∧
    readFile (DownloadFileConcurrently exampleEnv id flatFlags "dl" exampleWorld).world
      (destFileName flatFlags) = some [] := by
  refine ⟨by decide, by decide, by decide, by decide, by decide, by decide⟩

/-! ## The Range header -/

theorem headerGet_firstRequest (env : Env) (flags : ConcurrentDownloadFlags) (start stop : Int) :
    headerGet (firstRequest env flags start stop).header "Range" = rangeHeader start stop := by
  simp [firstRequest, buildRequest, headerSet, headerGet, List.find?]

/-- C7 (amended). For every FileSize >= 0 and SplitCount >= 1, the Range header
sent for a planned range `[start, end)` is "bytes=" + decimal(start) + "-" +
decimal(end-1) with 0 <= start; and start <= end-1 holds for every planned
range exactly when SplitCount <= FileSize, in which case the inclusive interval
requested is the planned range. -/
theorem C7_range_header (env : Env) (flags : ConcurrentDownloadFlags) (calls : List RangeCall)
    (h0 : 0 ≤ flags.FileSize) (h64 : flags.FileSize < 2 ^ 63)
    (h1 : 1 ≤ flags.SplitCount) (h3 : flags.SplitCount < 2 ^ 63)
    (hplan : plannedCalls flags = some calls) :
    (∀ c ∈ calls,
      headerGet (firstRequest env flags c.start c.stop).header "Range" =
        "bytes=" ++ FormatInt c.start ++ "-" ++ FormatInt (c.stop - 1) ∧ 0 ≤ c.start) ∧
    ((∀ c ∈ calls, c.start ≤ c.stop - 1) ↔ flags.SplitCount ≤ flags.FileSize) ∧
    (flags.SplitCount ≤ flags.FileSize → ∀ c ∈ calls, ∀ x : Int,
      (c.start ≤ x ∧ x ≤ c.stop - 1) ↔ (c.start ≤ x ∧ x < c.stop)) := by
  obtain ⟨calls', hcalls', hlen, hclosed⟩ := plannedCalls_closed flags h0 h64 h1 h3
  rw [hplan] at hcalls'
  obtain rfl : calls = calls' := Option.some.inj hcalls'
  obtain ⟨-, -, hq0, hqle, hdm, hm0, hm1⟩ := chunk_facts h0 h64 h1
  have hbounds : ∀ c ∈ calls, 0 ≤ c.start ∧ 0 ≤ c.stop ∧ c.stop ≤ flags.FileSize := by
    intro c hc
    obtain ⟨i, hi⟩ := List.mem_iff_getElem?.mp hc
    obtain ⟨hib, -, hs, he⟩ := hclosed i c hi
    have hi0 : (0 : Int) ≤ i := Int.ofNat_nonneg i
    rw [hs, he]
    refine ⟨by positivity, ?_, ?_⟩
    · split
      · exact h0
      · positivity
    · split
      · exact le_refl _
      · have : (i : Int) + 1 ≤ flags.SplitCount := by omega
        nlinarith
  refine ⟨?_, ?_, ?_⟩
  · intro c hc
    obtain ⟨hs0, he0, he1⟩ := hbounds c hc
    refine ⟨?_, hs0⟩
    rw [headerGet_firstRequest]
    unfold rangeHeader
    rw [wrap64_of_inInt64 ⟨by omega, by omega⟩]
  · constructor
    · intro hall
      have hpos : 0 < calls.length := by omega
      have h0c : calls[0]? = some calls[0] := List.getElem?_eq_getElem hpos
      obtain ⟨-, -, hs, he⟩ := hclosed 0 _ h0c
      have := hall _ (List.getElem_mem hpos)
      rw [hs, he] at this
      by_cases hl : ((0 : Nat) : Int) = flags.SplitCount - 1
      · rw [if_pos hl] at this
        simp only [Nat.cast_zero, mul_zero] at this hl
        omega
      · rw [if_neg hl] at this
        simp only [Nat.cast_zero, mul_zero, zero_add, mul_one] at this
        nlinarith
    · intro hle c hc
      obtain ⟨i, hi⟩ := List.mem_iff_getElem?.mp hc
      obtain ⟨hib, -, hs, he⟩ := hclosed i c hi
      have hq1 : 1 ≤ flags.FileSize / flags.SplitCount := by
        by_contra hq
        have : flags.FileSize / flags.SplitCount = 0 := by omega
        rw [this] at hdm
        omega
      rw [hs, he]
      by_cases hl : (i : Int) = flags.SplitCount - 1
      · rw [if_pos hl, hl]
        nlinarith
      · rw [if_neg hl]
        nlinarith
  · intro _ c _ x
    constructor <;> rintro ⟨a, b⟩ <;> exact ⟨a, by omega⟩

/-- The header property of C7 at the example transfer, where SplitCount <= FileSize. -/
theorem C7_range_header_witness :
    (∀ c ∈ [(⟨0, 3, 0⟩ : RangeCall), ⟨3, 6, 1⟩, ⟨6, 10, 2⟩], c.start ≤ c.stop - 1) ↔
      exampleFlags.SplitCount ≤ exampleFlags.FileSize :=
  (C7_range_header exampleEnv exampleFlags [⟨0, 3, 0⟩, ⟨3, 6, 1⟩, ⟨6, 10, 2⟩]
    (by decide) (by decide) (by decide) (by decide) (by decide)).2.1

/-- C7 as stated fails: a two-byte file in three ranges plans the empty range
`[0, 0)` for chunk 0, whose header is "bytes=0--1" with end-1 = -1 < start. -/
theorem C7_counterexample :
    plannedCalls smallFlags = some [⟨0, 0, 0⟩, ⟨0, 0, 1⟩, ⟨0, 2, 2⟩] ∧
    headerGet (firstRequest exampleEnv smallFlags 0 0).header "Range" = "bytes=0--1" ∧
    ¬ ((0 : Int) ≤ 0 - 1) ∧
    ¬ (∀ flags : ConcurrentDownloadFlags, 0 ≤ flags.FileSize → flags.FileSize < 2 ^ 63 →
        1 ≤ flags.SplitCount → flags.SplitCount < 2 ^ 63 →
        ∀ calls, plannedCalls flags = some calls → ∀ c ∈ calls,
          0 ≤ c.start ∧ c.start ≤ c.stop - 1) := by
  refine ⟨by decide, by decide, by decide, ?_⟩
  intro h
  have := (h smallFlags (by decide) (by decide) (by decide) (by decide) _
    (by decide : plannedCalls smallFlags = some [⟨0, 0, 0⟩, ⟨0, 0, 1⟩, ⟨0, 2, 2⟩])
    ⟨0, 0, 0⟩ (by simp)).2
  simp at this

/-! ## The redirect protocol -/

theorem LastIndex_ge (l : List Char) (sep : Char) : -1 ≤ LastIndex l sep := by
  induction l with
  | nil => simp [LastIndex]
  | cons x xs ih =>
    unfold LastIndex
    simp only
    split
    · omega
    · split <;> omega

theorem LastIndex_eq_neg_one (l : List Char) (sep : Char) :
    LastIndex l sep = -1 ↔ sep ∉ l := by
  induction l with
  | nil => simp [LastIndex]
  | cons x xs ih =>
    have hge := LastIndex_ge xs sep
    unfold LastIndex
    simp only
    by_cases hr : LastIndex xs sep = -1
    · rw [if_neg (by simpa using hr)]
      have hnot : sep ∉ xs := ih.mp hr
      by_cases hx : x = sep
      · rw [if_pos hx]
        simp [hx]
      · rw [if_neg hx]
        simp only [List.mem_cons, not_or, true_iff]
        exact ⟨fun h => hx h.symm, hnot⟩
    · rw [if_pos hr]
      have hin : sep ∈ xs := by
        by_contra hn
        exact hr (ih.mpr hn)
      constructor
      · intro h; omega
      · intro h; exact absurd (List.mem_cons_of_mem _ hin) h

/-- A found index splits the list at the last occurrence of the separator. -/
theorem LastIndex_split (l : List Char) (sep : Char) (h : LastIndex l sep ≠ -1) :
    0 ≤ LastIndex l sep ∧
    l = l.take (LastIndex l sep).toNat ++ sep :: l.drop (LastIndex l sep + 1).toNat ∧
    sep ∉ l.drop (LastIndex l sep + 1).toNat := by
  induction l with
  | nil => simp [LastIndex] at h
  | cons x xs ih =>
    have hge := LastIndex_ge xs sep
    by_cases hr : LastIndex xs sep = -1
    · have hnot : sep ∉ xs := (LastIndex_eq_neg_one xs sep).mp hr
      have hval : LastIndex (x :: xs) sep = if x = sep then 0 else -1 := by
        rw [LastIndex]
        rw [if_neg (by simpa using hr)]
      by_cases hx : x = sep
      · rw [hval, if_pos hx]
        simp [hx, hnot]
      · rw [hval, if_neg hx] at h
        exact absurd rfl h
    · obtain ⟨h0, hsplit, hnot⟩ := ih hr
      have hval : LastIndex (x :: xs) sep = LastIndex xs sep + 1 := by
        rw [LastIndex]
        rw [if_pos hr]
      rw [hval]
      have e1 : (LastIndex xs sep + 1).toNat = (LastIndex xs sep).toNat + 1 := by omega
      have e2 : (LastIndex xs sep + 1 + 1).toNat = (LastIndex xs sep + 1).toNat + 1 := by omega
      refine ⟨by omega, ?_, ?_⟩
      · rw [e1, e2, List.take_succ_cons, List.drop_succ_cons, List.cons_append, ← hsplit]
      · rw [e2, List.drop_succ_cons]
        exact hnot

/-- C10. For every path string, `GetFileAndDirFromPath` splits at the last
'/' if the path contains one, otherwise at the last backslash, otherwise it
returns the path as file name with an empty directory. Whenever a separator is
found, dir + separator + fileName is the input path and fileName does not
contain that separator; a backslash separates only when there is no '/'. -/
theorem C10_file_and_dir_from_path (path : String) :
    ('/' ∈ path.data →
      (GetFileAndDirFromPath path).2 ++ "/" ++ (GetFileAndDirFromPath path).1 = path ∧
      '/' ∉ (GetFileAndDirFromPath path).1.data) ∧
    ('/' ∉ path.data → '\\' ∈ path.data →
      (GetFileAndDirFromPath path).2 ++ "\\" ++ (GetFileAndDirFromPath path).1 = path ∧
      '\\' ∉ (GetFileAndDirFromPath path).1.data) ∧
    ('/' ∉ path.data → '\\' ∉ path.data → GetFileAndDirFromPath path = (path, "")) := by
  refine ⟨?_, ?_, ?_⟩
  · intro hs
    have hne : LastIndex path.data '/' ≠ -1 := fun h =>
      ((LastIndex_eq_neg_one _ _).mp h) hs
    obtain ⟨h0, hsplit, hnot⟩ := LastIndex_split path.data '/' hne
    have hval : GetFileAndDirFromPath path =
        (⟨path.data.drop (LastIndex path.data '/' + 1).toNat⟩,
          ⟨path.data.take (LastIndex path.data '/').toNat⟩) := by
      unfold GetFileAndDirFromPath
      simp only [if_neg hne]
      rw [if_pos hne]
    rw [hval]
    refine ⟨?_, hnot⟩
    apply String.ext
    simp only [String.data_append]
    rw [List.append_assoc, List.singleton_append]
    exact hsplit.symm
  · intro hs hb
    have hs1 : LastIndex path.data '/' = -1 := (LastIndex_eq_neg_one _ _).mpr hs
    have hne : LastIndex path.data '\\' ≠ -1 := fun h =>
      ((LastIndex_eq_neg_one _ _).mp h) hb
    obtain ⟨h0, hsplit, hnot⟩ := LastIndex_split path.data '\\' hne
    have hval : GetFileAndDirFromPath path =
        (⟨path.data.drop (LastIndex path.data '\\' + 1).toNat⟩,
          ⟨path.data.take (LastIndex path.data '\\').toNat⟩) := by
      unfold GetFileAndDirFromPath
      simp only [hs1, if_true]
      rw [if_pos hne]
    rw [hval]
    refine ⟨?_, hnot⟩
    apply String.ext
    simp only [String.data_append]
    rw [List.append_assoc, List.singleton_append]
    exact hsplit.symm
  · intro hs hb
    have hs1 : LastIndex path.data '/' = -1 := (LastIndex_eq_neg_one _ _).mpr hs
    have hb1 : LastIndex path.data '\\' = -1 := (LastIndex_eq_neg_one _ _).mpr hb
    unfold GetFileAndDirFromPath
    simp only [hs1, hb1, if_true]
    rw [if_neg (by simp)]

/-! ## The temporary directory variable -/

theorem AppendFile_tempDirPath (env : Env) (src dest : String) (w : World) :
    (AppendFile env src dest w).world.tempDirPath = w.tempDirPath := by
  unfold AppendFile
  split <;> rfl

theorem appendChunks_tempDirPath (env : Env) (flags : ConcurrentDownloadFlags) :
    ∀ (idx : List Nat) (w : World),
      (appendChunks env flags idx w).world.tempDirPath = w.tempDirPath := by
  intro idx
  induction idx with
  | nil => intro w; rfl
  | cons i rest ih =>
    intro w
    unfold appendChunks
    simp only [Proc.bind_apply]
    by_cases htmp : w.tempDirPath = ""
    · simp [GetTempDirPath, htmp, Result.world]
    · have hg : GetTempDirPath w = Result.ok w.tempDirPath w := by
        unfold GetTempDirPath; rw [if_neg htmp]
      rw [hg]
      simp only
      have ha := AppendFile_tempDirPath env
        (chunkReadPath w.tempDirPath flags (Int.ofNat i)) (destFileName flags) w
      cases hA : AppendFile env (chunkReadPath w.tempDirPath flags (Int.ofNat i))
          (destFileName flags) w with
      | ok v w1 =>
        rw [hA] at ha
        simp only [Result.world] at ha
        simp only
        rw [ih w1, ha]
      | exited m w1 =>
        rw [hA] at ha
        exact ha

theorem reassemble_tempDirPath (env : Env) (flags : ConcurrentDownloadFlags) (pfx : String)
    (w : World) : (reassemble env flags pfx w).world.tempDirPath = w.tempDirPath := by
  have key : ∀ w1 : World, w1.tempDirPath = w.tempDirPath →
      ((do Create (destFileName flags)
           appendChunks env flags (List.range flags.SplitCount.toNat)
           Println (pfx ++ " Done downloading.") : Proc Unit) w1).world.tempDirPath
        = w.tempDirPath := by
    intro w1 h1
    simp only [Proc.bind_apply, Create]
    have := appendChunks_tempDirPath env flags (List.range flags.SplitCount.toNat)
      { w1 with files := writeFile w1.files (destFileName flags) [] }
    cases hA : appendChunks env flags (List.range flags.SplitCount.toNat)
        { w1 with files := writeFile w1.files (destFileName flags) [] } with
    | ok v w2 =>
      rw [hA] at this
      simp only [Result.world] at this
      simp only [Println, Result.world]
      rw [this, h1]
    | exited m w2 =>
      rw [hA] at this
      simp only [Result.world] at this ⊢
      rw [this, h1]
  unfold reassemble
  simp only [Proc.bind_apply, IsPathExists]
  cases (readFile w (destFileName flags)).isSome with
  | true => exact key _ rfl
  | false => exact key _ rfl

theorem DownloadFileConcurrently_tempDirPath (env : Env)
    (sched : List RangeCall → List RangeCall) (flags : ConcurrentDownloadFlags) (pfx : String)
    (w : World) :
    (DownloadFileConcurrently env sched flags pfx w).world.tempDirPath = w.tempDirPath := by
  unfold DownloadFileConcurrently
  cases plannedCalls flags with
  | none => rfl
  | some calls =>
    simp only [Proc.bind_apply]
    have hf := (fanOut_tempDirPath env flags pfx (sched calls) w).1
    cases hF : fanOut env flags pfx (sched calls) w with
    | ok v w1 =>
      rw [hF] at hf
      simp only [Result.world] at hf
      simp only
      rw [reassemble_tempDirPath, hf]
    | exited m w1 =>
      rw [hF] at hf
      exact hf

theorem TempDir_ne_empty (env : Env) (pfx path : String) (h : TempDir env pfx = some path) :
    path ≠ "" := by
  unfold TempDir at h
  cases hd : env.tempDir with
  | none => rw [hd] at h; simp at h
  | some ds =>
    rw [hd] at h
    simp only [Option.map_some', Option.some.injEq] at h
    intro he
    rw [he] at h
    have := congrArg (fun s : String => s.data.length) h
    simp only [String.data_append, List.length_append, List.length_cons,
      List.length_nil] at this
    omega

/-- What one operation does to `tempDirPath`: only a returning
`CreateTempDirPath` changes it, from empty to non-empty. -/
theorem runTempOp_tempDirPath (env : Env) (op : TempOp) (w : World) :
    (op.isCreate = true ∧ (runTempOp env op w).returned = true →
      w.tempDirPath = "" ∧ (runTempOp env op w).world.tempDirPath ≠ "") ∧
    (¬ (op.isCreate = true ∧ (runTempOp env op w).returned = true) →
      (runTempOp env op w).world.tempDirPath = w.tempDirPath) := by
  cases op with
  | create =>
    simp only [runTempOp, TempOp.isCreate, true_and]
    unfold CreateTempDirPath
    by_cases htmp : w.tempDirPath = ""
    · rw [if_neg (by simpa using htmp)]
      cases hT : TempDir env "jfrog.cli." with
      | none => simp [Result.returned, Result.world]
      | some path =>
        have := TempDir_ne_empty env _ _ hT
        simp [Result.returned, Result.world, htmp, this]
    · rw [if_pos htmp]
      simp [Result.returned, Result.world]
  | get =>
    simp only [runTempOp, TempOp.isCreate, Bool.false_eq_true, false_and, false_implies,
      not_false_eq_true, true_implies, true_and, Proc.bind_apply]
    by_cases htmp : w.tempDirPath = ""
    · simp [GetTempDirPath, htmp, Result.world]
    · simp [GetTempDirPath, htmp, Result.world, Proc.pure_apply]
  | remove =>
    simp only [runTempOp, TempOp.isCreate, Bool.false_eq_true, false_and, false_implies,
      not_false_eq_true, true_implies, true_and]
    unfold RemoveTempDir
    split <;> rfl
  | fetch flags start stop i pfx =>
    simp only [runTempOp, TempOp.isCreate, Bool.false_eq_true, false_and, false_implies,
      not_false_eq_true, true_implies, true_and]
    exact (downloadFileRange_tempDirPath env flags start stop i pfx w).1
  | transfer sched flags pfx =>
    simp only [runTempOp, TempOp.isCreate, Bool.false_eq_true, false_and, false_implies,
      not_false_eq_true, true_implies, true_and]
    exact DownloadFileConcurrently_tempDirPath env sched flags pfx w

/-- At every point of a run, `tempDirPath` is empty exactly when it was empty
at the start and no `CreateTempDirPath` has returned. -/
theorem runOps_tempDirPath (env : Env) :
    ∀ (ops : List TempOp) (w : World),
      (runOps env ops w).world.tempDirPath = "" ↔
        (w.tempDirPath = "" ∧ createSucceeded env ops w = false) := by
  intro ops
  induction ops with
  | nil => intro w; simp [runOps, createSucceeded, Proc.pure_apply, Result.world]
  | cons op rest ih =>
    intro w
    obtain ⟨h1, h2⟩ := runTempOp_tempDirPath env op w
    unfold runOps createSucceeded
    simp only [Proc.bind_apply]
    cases hR : runTempOp env op w with
    | ok v w1 =>
      rw [hR] at h1 h2
      simp only [Result.returned, Result.world, and_true] at h1 h2
      simp only
      rw [ih w1]
      cases hc : op.isCreate with
      | true =>
        obtain ⟨ha, hb⟩ := h1 hc
        simp [hb]
      | false =>
        have := h2 (by simp [hc])
        simp [this]
    | exited m w1 =>
      rw [hR] at h2
      simp only [Result.returned, Result.world, Bool.false_eq_true, and_false,
        not_false_eq_true, true_implies] at h2
      simp [Result.world, h2]

/-- C9. `GetTempDirPath` ends the process exactly when `tempDirPath` is still
empty, which in every run of a process is exactly when no `CreateTempDirPath`
has returned, and otherwise returns `tempDirPath` and leaves the state as it
is. With `tempDirPath` unset, `downloadFileRange` ends the process in the state
it started from: no request sent, no chunk file created. The command
`DownloadFile` runs the download after `CreateTempDirPath`, hence with the
variable set, or not at all. -/
theorem C9_temp_dir_acquired_first (env : Env) :
    (∀ w : World, (GetTempDirPath w).returned = false ↔ w.tempDirPath = "") ∧
    (∀ w : World, w.tempDirPath ≠ "" → GetTempDirPath w = Result.ok w.tempDirPath w) ∧
    (∀ (ops : List TempOp) (files : String → Option Bytes),
      (runOps env ops (World.init files)).world.tempDirPath = "" ↔
        createSucceeded env ops (World.init files) = false) ∧
    (∀ (flags : ConcurrentDownloadFlags) (start stop i : Int) (pfx : String) (w : World),
      w.tempDirPath = "" →
        ∃ msg, downloadFileRange env flags start stop i pfx w = Result.exited msg w) ∧
    (∀ (body : Proc Unit) (files : String → Option Bytes),
      (∃ msg, commandsDownloadFile env body (World.init files) =
        Result.exited msg (World.init files)) ∨
      (∃ w1 : World, w1.tempDirPath ≠ "" ∧ w1.files = files ∧ w1.sent = [] ∧
        commandsDownloadFile env body (World.init files) =
          (do body; RemoveTempDir : Proc Unit) w1)) := by
  refine ⟨?_, ?_, ?_, ?_, ?_⟩
  · intro w
    unfold GetTempDirPath
    by_cases h : w.tempDirPath = ""
    · simp [h, Result.returned]
    · simp [h, Result.returned]
  · intro w h
    unfold GetTempDirPath
    rw [if_neg h]
  · intro ops files
    rw [runOps_tempDirPath env ops (World.init files)]
    simp [World.init]
  · intro flags start stop i pfx w h
    exact ⟨_, downloadFileRange_unset env flags start stop i pfx w h⟩
  · intro body files
    unfold commandsDownloadFile
    simp only [Proc.bind_apply]
    unfold CreateTempDirPath
    rw [if_neg (by simp [World.init])]
    cases hT : TempDir env "jfrog.cli." with
    | none => exact Or.inl ⟨_, rfl⟩
    | some path =>
      refine Or.inr ⟨{ World.init files with tempDirPath := path }, ?_, rfl, rfl, rfl⟩
      exact TempDir_ne_empty env _ _ hT

/-! ## The probe -/

end JfrogCli
